import Mathlib

/-
  Verification of the JSLibrary helper collection.

  The JavaScript source is embedded shallowly: JS values become the inductive
  type `JSVal`, JS exceptions become an `Except JSError` result, and each
  library function becomes a Lean function translated clause-by-clause from
  the source.  Handlers passed to the dispatcher take no arguments in the
  source, so a handler is modelled by the value it returns.
-/

/-- A JavaScript value, restricted to the shapes the library manipulates. -/
inductive JSVal where
  | str (s : String)
  | num (n : Int)
  | bool (b : Bool)
  | null
  | undef
  | arr (elems : List JSVal)
  | obj (fields : List (String × JSVal))

/-- The errors the transcoders can raise, named following the taxonomy of the
    spec.  In the source they are plain `Error`/`TypeError` throws. -/
inductive JSError where
  | invalidInput
  | indexOutOfBounds
  | typeError

/-- The result of `typeof` in JavaScript, as a string tag. -/
def typeofTag : JSVal → String
  | .str _ => "string"
  | .num _ => "number"
  | .bool _ => "boolean"
  | .null => "object"
  | .undef => "undefined"
  | .arr _ => "object"
  | .obj _ => "object"

mutual
/-- JavaScript property-key coercion, i.e. ToString: the string a value turns
    into when used as an object key (`acc[key]` / `switchLike[variable]`).
    An array stringifies as the comma join of its elements (`String([1])` is
    `1`, `String([1,2])` is `1,2`, nested arrays join recursively, `null` and
    `undefined` elements join as empty); a plain object stringifies as
    `[object Object]` via `Object.prototype.toString`. -/
def toPropertyKey : JSVal → String
  | .str s => s
  | .num n => toString n
  | .bool b => if b then "true" else "false"
  | .null => "null"
  | .undef => "undefined"
  | .arr elems => joinKeys elems
  | .obj _ => "[object Object]"

/-- `Array.prototype.join` with the default comma separator, as ToString uses
    it: `null` and `undefined` elements contribute the empty string, every
    other element contributes its own ToString. -/
def joinKeys : List JSVal → String
  | [] => ""
  | [JSVal.null] => ""
  | [JSVal.undef] => ""
  | [v] => toPropertyKey v
  | JSVal.null :: rest => "," ++ joinKeys rest
  | JSVal.undef :: rest => "," ++ joinKeys rest
  | v :: rest => toPropertyKey v ++ "," ++ joinKeys rest
end

/-- The own property names of `Object.prototype`: the members a property read
    on an object built from an empty object literal finds through the
    prototype chain when no own key matches.  Every one of them reads as a truthy value
    (the legacy members are functions; reading `__proto__` through its
    inherited accessor yields the prototype object itself). -/
def objectProtoMembers : List String :=
  ["constructor", "hasOwnProperty", "isPrototypeOf", "propertyIsEnumerable",
   "toLocaleString", "toString", "valueOf", "__defineGetter__",
   "__defineSetter__", "__lookupGetter__", "__lookupSetter__", "__proto__"]

/-- JavaScript truthiness of a value. -/
def truthy : JSVal → Bool
  | .str s => !(s == "")
  | .num n => !(n == 0)
  | .bool b => b
  | .null => false
  | .undef => false
  | .arr _ => true
  | .obj _ => true

/-- JavaScript strict equality on primitive values.  For arrays and objects
    `===` is reference identity, which a value-based embedding cannot observe;
    independently constructed literals are never identical, so the model
    returns `false` whenever either side is an array or an object. -/
def strictEq : JSVal → JSVal → Bool
  | .str a, .str b => a == b
  | .num a, .num b => a == b
  | .bool a, .bool b => a == b
  | .null, .null => true
  | .undef, .undef => true
  | _, _ => false

/-- Whether a value is a scalar (neither an array nor an object). -/
def isScalar : JSVal → Bool
  | .arr _ => false
  | .obj _ => false
  | _ => true

/-- Whether a value is exactly `null`. -/
def isNullV : JSVal → Bool
  | .null => true
  | _ => false

/-- A JavaScript object write `acc[k] = v`: overwrite the existing entry for
    `k` in place if present, otherwise append a new entry. -/
def insertKV {β : Type} : List (String × β) → String → β → List (String × β)
  | [], k, v => [(k, v)]
  | (k0, v0) :: rest, k, v =>
    if k0 = k then (k0, v) :: rest else (k0, v0) :: insertKV rest k v

/-- A JavaScript property read `t[s]` on a string-keyed table. -/
def lookupKV {β : Type} : List (String × β) → String → Option β
  | [], _ => none
  | (k0, v0) :: rest, s => if k0 = s then some v0 else lookupKV rest s

/-
  `_case(variable, ...couples)` from src/src/index.js lines 30-52.
  Each variadic argument is either a `[caseKey, caseFunc]` pair or a bare
  function; `couples.pop()` on an empty list yields `undefined`, which the
  source then pushes back, so that shape is also representable.
-/

/-- One variadic argument of `_case`: a `[caseKey, handler]` pair, a bare
    handler function, or the `undefined` the source pushes back after popping
    an empty argument list.  A handler is modelled by the value it returns. -/
inductive CaseArg (α : Type) where
  | pair (key : JSVal) (f : α)
  | func (f : α)
  | undefArg

/-- The prologue of the source, `couples.pop()` / conditional `couples.push(...)`:
    returns the recognised default function (if the last argument is callable)
    together with the remaining couples list. -/
def popPhase {α : Type} (args : List (CaseArg α)) : Option α × List (CaseArg α) :=
  match args.getLast? with
  | some (.func f) => (some f, args.dropLast)
  | some _ => (none, args)
  | none => (none, [CaseArg.undefArg])

/-- How the table build of `_case` can go astray: a case key that coerces to
    `__proto__` (the write then hits the inherited accessor and replaces the
    prototype of the lookup object instead of storing the handler), or a
    non-iterable argument (a function or `undefined`) whose destructuring
    `[caseKey, caseFunc]` throws a TypeError. -/
inductive BuildErr where
  | protoKey
  | badArg

/-- What the embedded `_case` can do.  `ret` is an invoked handler or
    fallback, modelled by its result; `unmatched` is the synthesized
    `No case found for key` throw; `argTypeError` is the TypeError from
    destructuring a non-pair argument; `inherited name` records that
    `switchLike[variable]` found the inherited `Object.prototype` member
    `name` (truthy) and invoked it — the source then returns or throws a
    member-specific result that the model abstains from (hand traces:
    `toString` returns the string `[object Undefined]`, `constructor` returns
    a fresh empty object, `valueOf`/`hasOwnProperty`/`isPrototypeOf`/
    `propertyIsEnumerable`/`toLocaleString` and the legacy getter/setter
    definers throw a TypeError on an undefined receiver, and reading
    `__proto__` yields the non-callable prototype so the call throws) — in
    every case the fallback path is not taken; `protoMutation` records that a
    case key coerced to `__proto__`, so the table prototype was replaced by
    the handler function and later reads consult that function, which the
    model likewise abstains from. -/
inductive CaseOutcome (α : Type) where
  | ret (a : α)
  | unmatched (v : JSVal)
  | argTypeError
  | inherited (name : String)
  | protoMutation

/-- The table of the source, built by `couples.reduce((acc, [caseKey, caseFunc]) => ...)`:
    each pair is written into the lookup object as an own property, except a
    key coercing to `__proto__`, whose write replaces the prototype instead;
    destructuring a non-iterable element throws a TypeError. -/
def buildTableAux {α : Type} (acc : List (String × α)) :
    List (CaseArg α) → Except BuildErr (List (String × α))
  | [] => .ok acc
  | .pair k f :: rest =>
    if toPropertyKey k = "__proto__" then .error .protoKey
    else buildTableAux (insertKV acc (toPropertyKey k) f) rest
  | .func _ :: _ => .error .badArg
  | .undefArg :: _ => .error .badArg

/-- `_case` from src/src/index.js lines 30-52: pop a trailing callable as the
    default, build the lookup object, read `switchLike[variable]` — an own
    property first, else an inherited `Object.prototype` member — and run the
    truthy result if found, else the default, else throw
    `No case found for key`.  The source calls the subject parameter
    `variable`, a reserved word here. -/
def _case {α : Type} (subject : JSVal) (args : List (CaseArg α)) : CaseOutcome α :=
  let popped := popPhase args
  match buildTableAux [] popped.2 with
  | .error .protoKey => .protoMutation
  | .error .badArg => .argTypeError
  | .ok table =>
    match lookupKV table (toPropertyKey subject) with
    | some f => .ret f
    | none =>
      if toPropertyKey subject ∈ objectProtoMembers then
        .inherited (toPropertyKey subject)
      else
        match popped.1 with
        | some d => .ret d
        | none => .unmatched subject

/-- The handler selected by the overwrite rule of the claim: the handler of the
    last pair whose case key coerces to the property key `s`. -/
def lastKeyMatch {α : Type} (s : String) : List (JSVal × α) → Option α
  | [] => none
  | p :: rest =>
    match lastKeyMatch s rest with
    | some g => some g
    | none => if toPropertyKey p.1 = s then some p.2 else none

/-- Encode a couples list plus an optional trailing default function as the
    variadic argument list the source receives. -/
def caseArgsOf {α : Type} (couples : List (JSVal × α)) (fb : Option α) : List (CaseArg α) :=
  couples.map (fun p => CaseArg.pair p.1 p.2) ++ fb.elim [] (fun f => [CaseArg.func f])

/-- The fold that `couples.reduce` performs on honest pair arguments. -/
def tableFold {α : Type} (acc : List (String × α)) (couples : List (JSVal × α)) :
    List (String × α) :=
  couples.foldl (fun a p => insertKV a (toPropertyKey p.1) p.2) acc

/-- `_wait` from src/src/index.js lines 105-117, modelled by the duration the
    source hands to `setTimeout`: the returned promise resolves with no
    payload after `timeInMs` milliseconds and has no reject path, so the model
    returns the computed `timeInMs` (an `.ok` result is a resolving promise).
    The handlers close over `value` and assign `timeInMs`, so each is modelled
    by the duration it assigns.  A unit tag naming an inherited
    `Object.prototype` member makes `_case` invoke that member instead of any
    handler: no handler assigns `timeInMs`, so the source either schedules
    `setTimeout(resolve, undefined)` — a zero delay — or (for members that
    throw on an undefined receiver, such as `valueOf`) throws inside the
    promise executor, rejecting the promise. -/
def _wait (value : ℚ) (unit : String) : CaseOutcome ℚ :=
  _case (JSVal.str unit)
    [ CaseArg.pair (JSVal.str "ms") value,
      CaseArg.pair (JSVal.str "s") (value * 1000),
      CaseArg.pair (JSVal.str "m") (value * 1000 * 60),
      CaseArg.pair (JSVal.str "h") (value * 1000 * 60 * 60),
      CaseArg.func value ]

/-
  `_removeDuplicates(array, except = [])` from src/unnamed/part_000 lines
  201-203:
    array.filter((value, index, self) =>
      self.indexOf(value) === index || except.includes(value))
-/

/-- JavaScript `Array.prototype.indexOf`: index of the first occurrence,
    counted from 0.  (For an absent value JS yields -1; the library only
    compares the result against the index of a present value, so the model
    returns the list length in that irrelevant case.) -/
def firstIndexOf {α : Type} [DecidableEq α] : List α → α → Nat
  | [], _ => 0
  | x :: xs, v => if x = v then 0 else firstIndexOf xs v + 1

/-- The indexed filter pass of `_removeDuplicates`: `self` stays the full
    original array, `i` is the index of the head of the remaining suffix. -/
def rdGo {α : Type} [DecidableEq α] (self except : List α) : Nat → List α → List α
  | _, [] => []
  | i, v :: rest =>
    if firstIndexOf self v = i ∨ v ∈ except then v :: rdGo self except (i + 1) rest
    else rdGo self except (i + 1) rest

/-- `_removeDuplicates` from src/unnamed/part_000 lines 201-203. -/
def _removeDuplicates {α : Type} [DecidableEq α] (array : List α) (except : List α) :
    List α :=
  rdGo array except 0 array

/-- The description the claim gives of `_removeDuplicates`: walk the array keeping
    every value listed in `except` and the first occurrence (i.e. a value not
    already seen in the processed prefix) of every other value. -/
def specDedup {α : Type} [DecidableEq α] (except : List α) : List α → List α → List α
  | _, [] => []
  | seen, x :: xs =>
    if x ∈ except ∨ x ∉ seen then x :: specDedup except (seen ++ [x]) xs
    else specDedup except (seen ++ [x]) xs

/-
  `_ObjectToArray(obj)` from src/unnamed/part_000 lines 229-245.
-/

mutual
/-- The inner `transform` closure of `_ObjectToArray` (src/unnamed/part_000
    lines 234-242): an array is returned as-is; any other value of typeof
    `object` goes through `Object.entries` — which throws a TypeError when the
    value is `null`; every other value is returned unchanged. -/
def transform : JSVal → Except JSError JSVal
  | .arr xs => .ok (.arr xs)
  | .obj fields =>
    match transformFields fields with
    | .ok l => .ok (.arr l)
    | .error e => .error e
  | .null => .error .typeError
  | v => .ok v

/-- `Object.entries(item).map(([key, val]) => [key, transform(val)])`,
    evaluated left to right. -/
def transformFields : List (String × JSVal) → Except JSError (List JSVal)
  | [] => .ok []
  | (k, v) :: rest =>
    match transform v with
    | .error e => .error e
    | .ok w =>
      match transformFields rest with
      | .error e => .error e
      | .ok l => .ok (.arr [.str k, w] :: l)
end

/-- `_ObjectToArray` from src/unnamed/part_000 lines 229-245: reject inputs
    that are not non-null values of typeof `object`, then transform. -/
def _ObjectToArray (o : JSVal) : Except JSError JSVal :=
  if typeofTag o ≠ "object" ∨ isNullV o = true then .error .invalidInput
  else transform o

mutual
/-- The description the claim gives of the transform: a sequence is an opaque leaf, a
    mapping becomes the ordered sequence of `[key, transform(value)]` pairs,
    and any other scalar is returned as-is. -/
def specTransform : JSVal → JSVal
  | .arr xs => .arr xs
  | .obj fields => .arr (specTransformFields fields)
  | v => v

/-- The mapping case of `specTransform`, one `[key, value]` pair per field. -/
def specTransformFields : List (String × JSVal) → List JSVal
  | [] => []
  | (k, v) :: rest => .arr [.str k, specTransform v] :: specTransformFields rest
end

mutual
/-- No `null` is reachable from the value along the route `transform`
    recurses on (object field values; arrays are opaque leaves). -/
def objNullFree : JSVal → Bool
  | .null => false
  | .obj fields => fieldsNullFree fields
  | _ => true

/-- `objNullFree` over the field values of a mapping. -/
def fieldsNullFree : List (String × JSVal) → Bool
  | [] => true
  | (_, v) :: rest => objNullFree v && fieldsNullFree rest
end

/-
  `_ArrayToObject(array, keyIndex = 0)` from src/unnamed/part_000 lines
  267-279.  The claims quantify over arrays of entries that are themselves
  ordered sequences, so the embedding takes each entry as a `List JSVal`.
-/

/-- The prototype of the accumulator object of `_ArrayToObject`, which starts
    as an empty object literal (prototype `Object.prototype`) and can be
    replaced, or cleared entirely, by a write to the key `__proto__`. -/
inductive ProtoState where
  | objectProto
  | nullProto
  | valueProto (v : JSVal)

/-- Whether the inherited `__proto__` accessor of `Object.prototype` is still
    reachable along the prototype chain of the accumulator.  It is lost only
    when the prototype has been set to `null`; an array or plain-object
    prototype itself inherits from `Object.prototype`. -/
def hasProtoAccessor : ProtoState → Bool
  | .nullProto => false
  | _ => true

/-- The assignment `acc[k] = v` of `_ArrayToObject`, on an accumulator given
    as its own entries plus its prototype.  While the inherited `__proto__`
    accessor is reachable, a write to the key `__proto__` invokes it instead
    of creating an own entry: an array or object value becomes the new
    prototype, `null` clears the prototype, and any other primitive is a
    silent no-op.  Every other write creates or overwrites an own entry (no
    reachable prototype in this value domain carries a conflicting setter or
    non-writable data property). -/
def jsAssign (acc : List (String × JSVal) × ProtoState) (k : String) (v : JSVal) :
    List (String × JSVal) × ProtoState :=
  if k = "__proto__" ∧ hasProtoAccessor acc.2 = true then
    match v with
    | .arr es => (acc.1, .valueProto (.arr es))
    | .obj fs => (acc.1, .valueProto (.obj fs))
    | .null => (acc.1, .nullProto)
    | _ => acc
  else (insertKV acc.1 k v, acc.2)

/-- From the source, `values.length > 1 ? values : values[0] || null`, with
    `values[0]` reading as `undefined` on an empty list. -/
def collapseValues (values : List JSVal) : JSVal :=
  if values.length > 1 then .arr values
  else if truthy (values.headD .undef) then values.headD .undef else .null

/-- One `reduce` step of `_ArrayToObject`: bounds-check `keyIndex` against the
    entry, take the key at `keyIndex`, splice the key position out to obtain
    the values, and assign the collapsed value under the coerced key. -/
def a2oStep (keyIndex : Int) (acc : List (String × JSVal) × ProtoState)
    (item : List JSVal) : Except JSError (List (String × JSVal) × ProtoState) :=
  if keyIndex < 0 ∨ (item.length : Int) ≤ keyIndex then .error .indexOutOfBounds
  else
    let i := keyIndex.toNat
    let key := item.getD i .undef
    let values := item.take i ++ item.drop (i + 1)
    .ok (jsAssign acc (toPropertyKey key) (collapseValues values))

/-- `_ArrayToObject` from src/unnamed/part_000 lines 267-279.  The result is
    the own-entry mapping of the accumulator; the prototype the reduce may
    have installed is not part of the mapping value the caller observes. -/
def _ArrayToObject (array : List (List JSVal)) (keyIndex : Int) :
    Except JSError (List (String × JSVal)) :=
  match array.foldlM (fun acc item => a2oStep keyIndex acc item)
      ([], ProtoState.objectProto) with
  | .ok acc => .ok acc.1
  | .error e => .error e

/-- The key an entry contributes, per the claim: the element at `keyIndex`,
    coerced to a mapping key. -/
def specEntryKey (keyIndex : Int) (e : List JSVal) : String :=
  toPropertyKey (e.getD keyIndex.toNat .undef)

/-- The value an entry contributes, per the amended claim: the remaining
    elements with the key position removed, collapsed to the single remaining
    element when exactly one remains and it is truthy, to `null` when none
    remains or the single remaining element is falsy, and kept as an ordered
    sequence otherwise. -/
def specEntryValue (keyIndex : Int) (e : List JSVal) : JSVal :=
  match e.take keyIndex.toNat ++ e.drop (keyIndex.toNat + 1) with
  | [] => .null
  | [v] => if truthy v then v else .null
  | vs => .arr vs

/-- The mapping the claim describes `_ArrayToObject` building, entry by entry
    with last-write-wins on duplicate keys. -/
def specArrayToObject (array : List (List JSVal)) (keyIndex : Int) :
    List (String × JSVal) :=
  array.foldl (fun acc e => insertKV acc (specEntryKey keyIndex e) (specEntryValue keyIndex e)) []

/-- Decode a list of values as entry lists, succeeding only when every
    element is itself an array. -/
def entryListsOf : List JSVal → Option (List (List JSVal))
  | [] => some []
  | JSVal.arr e :: rest =>
    match entryListsOf rest with
    | some l => some (e :: l)
    | none => none
  | _ :: _ => none

/-- Decode `_ObjectToArray` output back into entry lists: an array each of
    whose elements is itself an array. -/
def toEntryLists : JSVal → Option (List (List JSVal))
  | .arr items => entryListsOf items
  | _ => none

/-- The round-trip `_ArrayToObject(_ObjectToArray(m), 0)` on a mapping `m`. -/
def objRoundTrip (m : List (String × JSVal)) : Except JSError (List (String × JSVal)) :=
  match _ObjectToArray (JSVal.obj m) with
  | .error e => .error e
  | .ok a =>
    match toEntryLists a with
    | some entries => _ArrayToObject entries 0
    | none => .error .typeError

/-- Modelled from the spec: the `_filterArray` implementation is not among the
    provided sources (only its test suite is).  Spec §4.8: return a new
    sequence containing only the elements — recursively, for nested
    sequences — whose runtime type matches one of the given tags, preserving
    nesting structure and relative order; a nested sequence is kept as a
    (recursively filtered, possibly empty) sequence rather than dropped. -/
def _filterArray : List JSVal → List String → List JSVal
  | [], _ => []
  | JSVal.arr ys :: rest, ts => JSVal.arr (_filterArray ys ts) :: _filterArray rest ts
  | v :: rest, ts =>
    if typeofTag v ∈ ts then v :: _filterArray rest ts else _filterArray rest ts

/-- The per-element decision of `_filterArray`, for stating its
    characterisation: a nested sequence is kept (filtered), a scalar is kept
    exactly when its type tag is listed. -/
def keepElem (ts : List String) : JSVal → Option JSVal
  | JSVal.arr ys => some (JSVal.arr (_filterArray ys ts))
  | v => if typeofTag v ∈ ts then some v else none

/-- Modelled from the spec: the `_insertAt` implementation is not among the
    provided sources (only its test suite is).  Spec §4.9: an `index` outside
    `[0, array.length]` (both ends inclusive) leaves the array unchanged — no
    insertion, no error — and an in-bounds fractional `index` inserts the
    items at the position obtained by truncating toward the nearest lower
    integer (floor). -/
def _insertAt {α : Type} (array : List α) (index : ℚ) (items : List α) : List α :=
  if index < 0 ∨ (array.length : ℚ) < index then array
  else array.take (⌊index⌋).toNat ++ items ++ array.drop (⌊index⌋).toNat

theorem lookupKV_insertKV {β : Type} (t : List (String × β)) (k s : String) (v : β) :
    lookupKV (insertKV t k v) s = if k = s then some v else lookupKV t s := by
  induction t with
  | nil =>
    by_cases h : k = s <;> simp [insertKV, lookupKV, h]
  | cons p rest ih =>
    obtain ⟨k0, v0⟩ := p
    by_cases h0 : k0 = k
    · subst h0
      by_cases h : k0 = s <;> simp [insertKV, lookupKV, h]
    · by_cases h : k0 = s
      · subst h
        have hk : ¬ k = k0 := fun hh => h0 hh.symm
        simp [insertKV, lookupKV, h0, hk]
      · simp [insertKV, lookupKV, h0, h, ih]

theorem buildTableAux_pairs {α : Type} :
    ∀ (couples : List (JSVal × α)) (acc : List (String × α)),
      (∀ p ∈ couples, toPropertyKey p.1 ≠ "__proto__") →
      buildTableAux acc (couples.map (fun p => CaseArg.pair p.1 p.2)) =
        .ok (tableFold acc couples) := by
  intro couples
  induction couples with
  | nil => intro acc _; simp [buildTableAux, tableFold]
  | cons p rest ih =>
    intro acc hkeys
    have hp := hkeys p (by simp)
    have hrest : ∀ q ∈ rest, toPropertyKey q.1 ≠ "__proto__" :=
      fun q hq => hkeys q (by simp [hq])
    have hstep : tableFold acc (p :: rest) =
        tableFold (insertKV acc (toPropertyKey p.1) p.2) rest := by
      simp [tableFold]
    simp only [List.map_cons, buildTableAux, if_neg hp, hstep]
    exact ih _ hrest

theorem lookupKV_tableFold {α : Type} (couples : List (JSVal × α)) (s : String) :
    ∀ acc : List (String × α),
      lookupKV (tableFold acc couples) s =
        match lastKeyMatch s couples with
        | some f => some f
        | none => lookupKV acc s := by
  induction couples with
  | nil => intro acc; simp [tableFold, lastKeyMatch]
  | cons p rest ih =>
    intro acc
    have hstep : tableFold acc (p :: rest) =
        tableFold (insertKV acc (toPropertyKey p.1) p.2) rest := by
      simp [tableFold]
    rw [hstep, ih]
    cases hrest : lastKeyMatch s rest with
    | some g => simp [lastKeyMatch, hrest]
    | none =>
      by_cases hp : toPropertyKey p.1 = s <;>
        simp [lastKeyMatch, hrest, hp, lookupKV_insertKV]

theorem popPhase_concat_func {α : Type} (args : List (CaseArg α)) (f : α) :
    popPhase (args ++ [CaseArg.func f]) = (some f, args) := by
  simp [popPhase]

theorem getLast?_map_pairArg {α : Type} (couples : List (JSVal × α)) :
    (couples.map (fun q => CaseArg.pair q.1 q.2)).getLast? =
      couples.getLast?.map (fun q => CaseArg.pair q.1 q.2) := by
  induction couples with
  | nil => rfl
  | cons c cs ih =>
    cases cs with
    | nil => rfl
    | cons d ds => simpa [List.getLast?_cons_cons] using ih

theorem popPhase_pairs {α : Type} (couples : List (JSVal × α)) (h : couples ≠ []) :
    popPhase (couples.map (fun p => CaseArg.pair p.1 p.2)) =
      (none, couples.map (fun p => CaseArg.pair p.1 p.2)) := by
  have hsome : couples.getLast?.isSome := List.getLast?_isSome.mpr h
  obtain ⟨p, hp⟩ := Option.isSome_iff_exists.mp hsome
  have hm : (couples.map (fun q => CaseArg.pair q.1 q.2)).getLast? =
      some (CaseArg.pair p.1 p.2) := by
    rw [getLast?_map_pairArg, hp]
    rfl
  simp [popPhase, hm]

/-- General dispatch behaviour of the embedded `_case` on an argument list of
    pairs optionally terminated by a bare default function, away from the
    prototype-chain pathologies: no case key may coerce to `__proto__`, and
    the subject must either match some own key or not coerce to an inherited
    `Object.prototype` member name. -/
theorem case_dispatch_eq {α : Type} (v : JSVal) (couples : List (JSVal × α))
    (fb : Option α)
    (hargs : couples ≠ [] ∨ fb.isSome)
    (hkeys : ∀ p ∈ couples, toPropertyKey p.1 ≠ "__proto__")
    (hsubj : lastKeyMatch (toPropertyKey v) couples ≠ none ∨
      toPropertyKey v ∉ objectProtoMembers) :
    _case v (caseArgsOf couples fb) =
      match lastKeyMatch (toPropertyKey v) couples with
      | some f => .ret f
      | none =>
        match fb with
        | some d => .ret d
        | none => .unmatched v := by
  have hbuild := buildTableAux_pairs couples [] hkeys
  cases fb with
  | some f =>
    have hpop : popPhase (caseArgsOf couples (some f)) =
        (some f, couples.map (fun p => CaseArg.pair p.1 p.2)) := by
      simpa [caseArgsOf] using
        popPhase_concat_func (couples.map (fun p => CaseArg.pair p.1 p.2)) f
    simp only [_case, hpop, hbuild, lookupKV_tableFold]
    cases hm : lastKeyMatch (toPropertyKey v) couples with
    | some g => simp [hm, lookupKV]
    | none =>
      have hnm : toPropertyKey v ∉ objectProtoMembers := by
        rcases hsubj with hs | hs
        · exact absurd hm hs
        · exact hs
      simp [hm, lookupKV, hnm]
  | none =>
    have hne : couples ≠ [] := by
      rcases hargs with h | h
      · exact h
      · simp at h
    have hpop : popPhase (caseArgsOf couples none) =
        (none, couples.map (fun p => CaseArg.pair p.1 p.2)) := by
      simpa [caseArgsOf] using popPhase_pairs couples hne
    simp only [_case, hpop, hbuild, lookupKV_tableFold]
    cases hm : lastKeyMatch (toPropertyKey v) couples with
    | some g => simp [hm, lookupKV]
    | none =>
      have hnm : toPropertyKey v ∉ objectProtoMembers := by
        rcases hsubj with hs | hs
        · exact absurd hm hs
        · exact hs
      simp [hm, lookupKV, hnm]

/-- C1 (amended): for every subject, every argument sequence of
    `(caseKey, handler)` pairs optionally terminated by a bare fallback
    function with at least one argument present, no case key coercing to
    `__proto__`, and a subject that either matches a case key or does not
    coerce to an own member name of `Object.prototype`: `_case` returns the
    result of the handler of the last pair whose case key coerces (JavaScript
    ToString) to the same property key as the subject, later pairs sharing a
    key overwriting earlier ones; if no key matches it returns the result of
    the fallback, and if no fallback was supplied it raises an
    `UnmatchedCaseError` carrying the unmatched subject value.  Outside these
    conditions the source instead invokes an inherited prototype member,
    mutates the prototype of the lookup table, or throws a TypeError — see
    the counterexample. -/
theorem case_dispatch_lastWriteWins {α : Type} (v : JSVal)
    (couples : List (JSVal × α)) (fb : Option α)
    (hargs : couples ≠ [] ∨ fb.isSome)
    (hkeys : ∀ p ∈ couples, toPropertyKey p.1 ≠ "__proto__")
    (hsubj : lastKeyMatch (toPropertyKey v) couples ≠ none ∨
      toPropertyKey v ∉ objectProtoMembers) :
    _case v (caseArgsOf couples fb) =
      match lastKeyMatch (toPropertyKey v) couples with
      | some f => .ret f
      | none =>
        match fb with
        | some d => .ret d
        | none => .unmatched v :=
  case_dispatch_eq v couples fb hargs hkeys hsubj

/-- Witness for C1 at the example given in the spec: subject `case3`, two
    pairs, no fallback, yielding the unmatched-case error carrying the
    subject. -/
theorem case_dispatch_lastWriteWins_witness :
    _case (JSVal.str "case3")
        (caseArgsOf [(JSVal.str "case1", 1), (JSVal.str "case2", 2)] (none : Option Nat)) =
      CaseOutcome.unmatched (JSVal.str "case3") := by
  rw [case_dispatch_lastWriteWins (JSVal.str "case3")
    [(JSVal.str "case1", 1), (JSVal.str "case2", 2)] none (Or.inl (by simp))
    (by decide) (Or.inr (by decide))]
  rfl

/-- C1 fails as stated, at four concrete inputs.  First, matching is not
    strict equality but ToString property-key coercion: the number `1`
    strictly equals neither the string key `1` nor the array key `[1]`, no
    fallback is supplied, so the claim predicts an `UnmatchedCaseError`, yet
    the source finds the handler under the coerced key `1` and returns its
    result.  Second, a subject naming an inherited `Object.prototype` member
    (`toString`) with no matching pair invokes that member instead of raising.
    Third, an empty argument sequence throws a TypeError from destructuring
    `undefined`, not an `UnmatchedCaseError`.  Fourth, a case key coercing to
    `__proto__` replaces the prototype of the lookup table instead of storing
    a dispatchable handler. -/
theorem case_strictEq_cx :
    (strictEq (JSVal.num 1) (JSVal.str "1") = false ∧
      _case (JSVal.num 1) [CaseArg.pair (JSVal.str "1") 42] = CaseOutcome.ret 42) ∧
    (strictEq (JSVal.num 1) (JSVal.arr [JSVal.num 1]) = false ∧
      _case (JSVal.num 1) [CaseArg.pair (JSVal.arr [JSVal.num 1]) 7] = CaseOutcome.ret 7) ∧
    (_case (JSVal.str "toString")
        (caseArgsOf [(JSVal.str "case1", 1), (JSVal.str "case2", 2)] (none : Option Nat)) =
        CaseOutcome.inherited "toString" ∧
      CaseOutcome.inherited "toString" ≠
        (CaseOutcome.unmatched (JSVal.str "toString") : CaseOutcome Nat)) ∧
    (_case (JSVal.str "x") (caseArgsOf ([] : List (JSVal × Nat)) none) =
      CaseOutcome.argTypeError) ∧
    (_case (JSVal.str "call")
        (caseArgsOf [(JSVal.str "__proto__", 5)] (none : Option Nat)) =
      CaseOutcome.protoMutation) := by
  refine ⟨⟨rfl, rfl⟩, ⟨rfl, rfl⟩, ⟨rfl, by simp⟩, rfl, rfl⟩

/-- C9 (amended): for every numeric value and every unit tag that is not an
    own member name of `Object.prototype`, `_wait` computes the delay as the
    value for `ms`, value·1000 for `s`, value·60000 for `m`, value·3600000
    for `h`, and the raw value for any other tag, and the promise resolves
    with no payload after that duration, never rejecting.  A unit tag naming
    an inherited member instead invokes that member: no handler assigns the
    delay, which degenerates to 0, or the executor throws and the promise
    rejects — see the counterexample. -/
theorem wait_unit_conversion (value : ℚ) (unit : String)
    (h : unit ∉ objectProtoMembers) :
    _wait value unit = .ret (
      if unit = "ms" then value
      else if unit = "s" then value * 1000
      else if unit = "m" then value * 60000
      else if unit = "h" then value * 3600000
      else value) := by
  have harg : _wait value unit =
      _case (JSVal.str unit) (caseArgsOf
        [(JSVal.str "ms", value), (JSVal.str "s", value * 1000),
         (JSVal.str "m", value * 1000 * 60), (JSVal.str "h", value * 1000 * 60 * 60)]
        (some value)) := rfl
  have hkeys : ∀ p ∈ [(JSVal.str "ms", value), (JSVal.str "s", value * 1000),
      (JSVal.str "m", value * 1000 * 60), (JSVal.str "h", value * 1000 * 60 * 60)],
      toPropertyKey p.1 ≠ "__proto__" := by
    intro p hp
    simp only [List.mem_cons, List.not_mem_nil, or_false] at hp
    rcases hp with rfl | rfl | rfl | rfl <;> simp [toPropertyKey]
  rw [harg, case_dispatch_eq (JSVal.str unit)
    [(JSVal.str "ms", value), (JSVal.str "s", value * 1000),
     (JSVal.str "m", value * 1000 * 60), (JSVal.str "h", value * 1000 * 60 * 60)]
    (some value) (Or.inr rfl) hkeys (Or.inr h)]
  by_cases h1 : unit = "ms"
  · subst h1; simp [lastKeyMatch, toPropertyKey]
  · by_cases h2 : unit = "s"
    · subst h2; simp [lastKeyMatch, toPropertyKey]
    · by_cases h3 : unit = "m"
      · subst h3
        simp [lastKeyMatch, toPropertyKey]
        ring
      · by_cases h4 : unit = "h"
        · subst h4
          simp [lastKeyMatch, toPropertyKey]
          ring
        · simp [lastKeyMatch, toPropertyKey, h1, h2, h3, h4,
            Ne.symm h1, Ne.symm h2, Ne.symm h3, Ne.symm h4]

/-- Witness for C9 at the unrecognized tag `bad` of the test suite: the value
    is treated as already in milliseconds and the promise resolves. -/
theorem wait_unit_conversion_witness :
    _wait 1 "bad" = CaseOutcome.ret (1 : ℚ) := by
  have h := wait_unit_conversion 1 "bad" (by decide)
  simpa using h

/-- C9 fails as stated at unrecognized unit tags that name inherited
    `Object.prototype` members: for `toString` no handler runs, `timeInMs`
    stays `undefined` and the scheduled delay is 0, not the value; for
    `valueOf` the inherited member throws on its undefined receiver inside
    the executor, so the promise rejects. -/
theorem wait_inherited_cx :
    _wait 1 "toString" = CaseOutcome.inherited "toString" ∧
    CaseOutcome.inherited "toString" ≠ CaseOutcome.ret (1 : ℚ) ∧
    _wait 1 "valueOf" = CaseOutcome.inherited "valueOf" := by
  refine ⟨rfl, by simp, rfl⟩

theorem firstIndexOf_append {α : Type} [DecidableEq α] (p s : List α) (v : α) :
    (firstIndexOf (p ++ v :: s) v = p.length) ↔ v ∉ p := by
  induction p with
  | nil => simp [firstIndexOf]
  | cons x xs ih =>
    by_cases hx : x = v
    · subst hx
      simp [firstIndexOf]
    · simp [firstIndexOf, hx, ih, Ne.symm hx]

theorem rdGo_eq_specDedup {α : Type} [DecidableEq α] (except : List α) :
    ∀ (s p : List α), rdGo (p ++ s) except p.length s = specDedup except p s := by
  intro s
  induction s with
  | nil => intro p; simp [rdGo, specDedup]
  | cons x xs ih =>
    intro p
    have harr : p ++ x :: xs = (p ++ [x]) ++ xs := by simp
    have hcond : (firstIndexOf (p ++ x :: xs) x = p.length ∨ x ∈ except) ↔
        (x ∈ except ∨ x ∉ p) := by
      rw [firstIndexOf_append]; tauto
    have hnext : rdGo (p ++ x :: xs) except (p.length + 1) xs =
        specDedup except (p ++ [x]) xs := by
      have hlen : (p ++ [x]).length = p.length + 1 := by simp
      rw [harr, ← hlen]
      exact ih (p ++ [x])
    by_cases hc : x ∈ except ∨ x ∉ p
    · rw [rdGo, if_pos (hcond.mpr hc), specDedup.eq_def]
      simp only [if_pos hc]
      rw [hnext]
    · rw [rdGo, if_neg (fun hh => hc (hcond.mp hh)), specDedup.eq_def]
      simp only [if_neg hc]
      rw [hnext]

/-- C4: `_removeDuplicates` returns, in original order, the first occurrence
    of every value not listed in `except` plus every occurrence of every value
    listed in `except`; membership and duplicate detection compare values with
    decidable (identity-style) equality, with no deep traversal. -/
theorem removeDuplicates_firstOccurrence {α : Type} [DecidableEq α]
    (array except : List α) :
    _removeDuplicates array except = specDedup except [] array := by
  have := rdGo_eq_specDedup except array []
  simpa [_removeDuplicates] using this

mutual
theorem transform_nullFree_eq : ∀ (v : JSVal), objNullFree v = true →
    transform v = .ok (specTransform v)
  | .str s, _ => by simp [transform, specTransform]
  | .num n, _ => by simp [transform, specTransform]
  | .bool b, _ => by simp [transform, specTransform]
  | .null, h => by simp [objNullFree] at h
  | .undef, _ => by simp [transform, specTransform]
  | .arr xs, _ => by simp [transform, specTransform]
  | .obj fields, h => by
    have hf := transformFields_nullFree_eq fields (by simpa [objNullFree] using h)
    simp [transform, specTransform, hf]

theorem transformFields_nullFree_eq : ∀ (l : List (String × JSVal)),
    fieldsNullFree l = true → transformFields l = .ok (specTransformFields l)
  | [], _ => by simp [transformFields, specTransformFields]
  | (k, v) :: rest, h => by
    have hp : objNullFree v = true ∧ fieldsNullFree rest = true := by
      simpa [fieldsNullFree, Bool.and_eq_true] using h
    have hv := transform_nullFree_eq v hp.1
    have hr := transformFields_nullFree_eq rest hp.2
    simp [transformFields, specTransformFields, hv, hr]
end

/-- C7 (amended): for every non-null object-shaped input in which no `null`
    occurs as a (possibly nested) mapping value, `_ObjectToArray` transforms
    it recursively: a sequence is returned as-is (an opaque leaf), a mapping
    becomes the ordered sequence of `[key, transform(value)]` pairs in native
    key order, and any other scalar is returned as-is.  (A nested `null`
    mapping value instead raises a TypeError — see the counterexample.) -/
theorem objectToArray_recursive_transform (v : JSVal)
    (hobj : typeofTag v = "object") (hnn : isNullV v = false)
    (hfree : objNullFree v = true) :
    _ObjectToArray v = .ok (specTransform v) := by
  have hguard : ¬ (typeofTag v ≠ "object" ∨ isNullV v = true) := by
    simp [hobj, hnn]
  rw [_ObjectToArray, if_neg hguard]
  exact transform_nullFree_eq v hfree

/-- Witness for C7 at the worked example of the spec, a two-level nested mapping
    with sequence leaves. -/
theorem objectToArray_recursive_transform_witness :
    _ObjectToArray (JSVal.obj
        [("a", JSVal.arr [JSVal.num 1, JSVal.num 2, JSVal.num 3]),
         ("b", JSVal.obj
            [("c", JSVal.arr [JSVal.num 4, JSVal.num 5, JSVal.num 6]),
             ("d", JSVal.obj [("e", JSVal.arr [JSVal.num 7, JSVal.num 8, JSVal.num 9])])])]) =
      .ok (JSVal.arr
        [JSVal.arr [JSVal.str "a", JSVal.arr [JSVal.num 1, JSVal.num 2, JSVal.num 3]],
         JSVal.arr [JSVal.str "b", JSVal.arr
           [JSVal.arr [JSVal.str "c", JSVal.arr [JSVal.num 4, JSVal.num 5, JSVal.num 6]],
            JSVal.arr [JSVal.str "d", JSVal.arr
              [JSVal.arr [JSVal.str "e",
                JSVal.arr [JSVal.num 7, JSVal.num 8, JSVal.num 9]]]]]]]) := by
  rw [objectToArray_recursive_transform (JSVal.obj
        [("a", JSVal.arr [JSVal.num 1, JSVal.num 2, JSVal.num 3]),
         ("b", JSVal.obj
            [("c", JSVal.arr [JSVal.num 4, JSVal.num 5, JSVal.num 6]),
             ("d", JSVal.obj [("e", JSVal.arr [JSVal.num 7, JSVal.num 8, JSVal.num 9])])])])
    rfl rfl (by simp [objNullFree, fieldsNullFree])]
  simp [specTransform, specTransformFields]

/-- C7 fails as stated on a nested `null` mapping value: `{a: null}` is a
    non-null object-shaped input and `null` is a scalar, so the claim predicts
    the key-value pair with key a and value null; the source instead reaches
    `Object.entries(null)`, which throws a TypeError. -/
theorem objectToArray_nested_null_cx :
    typeofTag (JSVal.obj [("a", JSVal.null)]) = "object" ∧
    isNullV (JSVal.obj [("a", JSVal.null)]) = false ∧
    _ObjectToArray (JSVal.obj [("a", JSVal.null)]) = .error .typeError ∧
    specTransform (JSVal.obj [("a", JSVal.null)]) =
      .arr [.arr [.str "a", JSVal.null]] := by
  refine ⟨rfl, rfl, ?_, by simp [specTransform, specTransformFields]⟩
  simp [_ObjectToArray, typeofTag, isNullV, transform, transformFields]

/-- C10: every array input — nested or empty — passes the non-null object
    guard of `_ObjectToArray` and is returned unchanged as an opaque leaf,
    with no error raised. -/
theorem objectToArray_array_identity (xs : List JSVal) :
    _ObjectToArray (JSVal.arr xs) = .ok (.arr xs) := by
  simp [_ObjectToArray, typeofTag, isNullV, transform]

theorem collapseValues_cases (values : List JSVal) :
    collapseValues values =
      match values with
      | [] => JSVal.null
      | [v] => if truthy v then v else JSVal.null
      | vs => JSVal.arr vs := by
  match values with
  | [] => simp [collapseValues, truthy]
  | [v] => simp [collapseValues]
  | v :: w :: t => simp [collapseValues]

theorem jsAssign_ne_proto (acc : List (String × JSVal) × ProtoState) (k : String)
    (v : JSVal) (hk : k ≠ "__proto__") :
    jsAssign acc k v = (insertKV acc.1 k v, acc.2) := by
  simp [jsAssign, hk]

theorem a2oStep_inBounds (k : Int) (acc : List (String × JSVal) × ProtoState)
    (e : List JSVal) (h0 : 0 ≤ k) (h1 : k < (e.length : Int)) :
    a2oStep k acc e = .ok (jsAssign acc (specEntryKey k e) (specEntryValue k e)) := by
  have hc : ¬ (k < 0 ∨ (e.length : Int) ≤ k) := by omega
  simp only [a2oStep, if_neg hc]
  rw [collapseValues_cases]
  rfl

theorem a2o_foldlM_ok (k : Int) (array : List (List JSVal)) :
    ∀ (es : List (String × JSVal)) (ps : ProtoState),
      (∀ e ∈ array, 0 ≤ k ∧ k < (e.length : Int)) →
      (∀ e ∈ array, specEntryKey k e ≠ "__proto__") →
      List.foldlM (fun acc item => a2oStep k acc item) (es, ps) array =
        .ok (array.foldl
          (fun acc e => insertKV acc (specEntryKey k e) (specEntryValue k e)) es, ps) := by
  induction array with
  | nil => intro es ps _ _; rfl
  | cons e rest ih =>
    intro es ps h hkeys
    have he := h e (by simp)
    have hke := hkeys e (by simp)
    rw [List.foldlM_cons, a2oStep_inBounds k (es, ps) e he.1 he.2,
      jsAssign_ne_proto (es, ps) _ _ hke]
    have hrest := ih (insertKV es (specEntryKey k e) (specEntryValue k e)) ps
      (fun x hx => h x (by simp [hx])) (fun x hx => hkeys x (by simp [hx]))
    simpa [List.foldl_cons] using hrest

/-- C2 (amended): for every array of entries and every `keyIndex` in bounds
    for all entries, none of whose designated keys coerces to `__proto__`,
    `_ArrayToObject` maps each entry to the key at position `keyIndex`
    (coerced to a mapping key by JavaScript ToString) and a value built from
    the remaining elements in original order with the key position removed:
    the value is the single remaining element when exactly one remains and it
    is truthy, `null` when none remains or the single remaining element is
    falsy, and the ordered sequence of remaining elements otherwise.  (A key
    coercing to `__proto__` is instead swallowed by the inherited prototype
    setter — see the counterexample.) -/
theorem arrayToObject_entry_mapping (array : List (List JSVal)) (k : Int)
    (h : ∀ e ∈ array, 0 ≤ k ∧ k < (e.length : Int))
    (hkeys : ∀ e ∈ array, specEntryKey k e ≠ "__proto__") :
    _ArrayToObject array k = .ok (specArrayToObject array k) := by
  have hfold := a2o_foldlM_ok k array [] ProtoState.objectProto h hkeys
  unfold _ArrayToObject
  rw [hfold]
  rfl

/-- Witness for C2 at the three-element entries used by the test suite. -/
theorem arrayToObject_entry_mapping_witness :
    _ArrayToObject [[JSVal.str "a", JSVal.num 10, JSVal.str "x"],
        [JSVal.str "b", JSVal.num 20, JSVal.str "y"]] 0 =
      .ok [("a", JSVal.arr [JSVal.num 10, JSVal.str "x"]),
           ("b", JSVal.arr [JSVal.num 20, JSVal.str "y"])] := by
  rw [arrayToObject_entry_mapping
    [[JSVal.str "a", JSVal.num 10, JSVal.str "x"],
     [JSVal.str "b", JSVal.num 20, JSVal.str "y"]] 0 (by decide) (by decide)]
  rfl

/-- C2 fails as stated at two concrete inputs.  First, for the entry with key
    a and single remaining element `0`, at `keyIndex` 0, the claim predicts
    the value `0`, but the `values[0] || null` of the source collapses the
    falsy element to `null`.  Second, an entry whose key is the string
    `__proto__` produces no mapping entry at all: the assignment hits the
    inherited prototype setter, a silent no-op for a primitive value, so the
    result is the empty mapping. -/
theorem arrayToObject_falsy_single_cx :
    (_ArrayToObject [[JSVal.str "a", JSVal.num 0]] 0 = .ok [("a", JSVal.null)] ∧
      JSVal.null ≠ JSVal.num 0) ∧
    _ArrayToObject [[JSVal.str "__proto__", JSVal.num 5]] 0 = .ok [] := by
  exact ⟨⟨rfl, by simp⟩, rfl⟩

theorem a2o_foldlM_err (k : Int) (array : List (List JSVal)) :
    ∀ acc : List (String × JSVal) × ProtoState,
      (∃ e ∈ array, k < 0 ∨ (e.length : Int) ≤ k) →
      List.foldlM (fun acc item => a2oStep k acc item) acc array =
        .error .indexOutOfBounds := by
  induction array with
  | nil => intro acc h; simp at h
  | cons e rest ih =>
    intro acc h
    by_cases hb : k < 0 ∨ (e.length : Int) ≤ k
    · rw [List.foldlM_cons, a2oStep, if_pos hb]
      rfl
    · have hin : 0 ≤ k ∧ k < (e.length : Int) := by omega
      rw [List.foldlM_cons, a2oStep_inBounds k acc e hin.1 hin.2]
      have hrest : ∃ x ∈ rest, k < 0 ∨ (x.length : Int) ≤ k := by
        rcases h with ⟨x, hx, hbad⟩
        rcases List.mem_cons.mp hx with hxe | hxr
        · subst hxe; exact absurd hbad hb
        · exact ⟨x, hxr, hbad⟩
      simpa using ih _ hrest

/-- C8: `_ArrayToObject` fails with an `IndexOutOfBoundsError` whenever, for
    some entry, `keyIndex` is negative or at least the length of that entry. -/
theorem arrayToObject_keyIndex_oob (array : List (List JSVal)) (k : Int)
    (h : ∃ e ∈ array, k < 0 ∨ (e.length : Int) ≤ k) :
    _ArrayToObject array k = .error .indexOutOfBounds := by
  have herr := a2o_foldlM_err k array ([], ProtoState.objectProto) h
  unfold _ArrayToObject
  rw [herr]

/-- Witness for C8: `keyIndex = 2` on length-2 entries raises the
    out-of-bounds error. -/
theorem arrayToObject_keyIndex_oob_witness :
    _ArrayToObject [[JSVal.str "a", JSVal.num 10], [JSVal.str "b", JSVal.num 20]] 2 =
      .error .indexOutOfBounds :=
  arrayToObject_keyIndex_oob
    [[JSVal.str "a", JSVal.num 10], [JSVal.str "b", JSVal.num 20]] 2 (by decide)

theorem transform_scalar_truthy (v : JSVal) (hs : isScalar v = true)
    (ht : truthy v = true) : transform v = .ok v := by
  cases v <;> simp_all [isScalar, truthy, transform]

theorem transformFields_scalar_truthy (m : List (String × JSVal))
    (h : m.all (fun p => isScalar p.2 && truthy p.2) = true) :
    transformFields m = .ok (m.map (fun p => JSVal.arr [JSVal.str p.1, p.2])) := by
  induction m with
  | nil => simp [transformFields]
  | cons p rest ih =>
    obtain ⟨k, v⟩ := p
    rw [List.all_cons, Bool.and_eq_true] at h
    obtain ⟨hp, hrest⟩ := h
    rw [Bool.and_eq_true] at hp
    have hv := transform_scalar_truthy v hp.1 hp.2
    simp [transformFields, hv, ih hrest]

theorem toEntryLists_pairs (m : List (String × JSVal)) :
    toEntryLists (JSVal.arr (m.map (fun p => JSVal.arr [JSVal.str p.1, p.2]))) =
      some (m.map (fun p => [JSVal.str p.1, p.2])) := by
  induction m with
  | nil => rfl
  | cons p rest ih =>
    simp only [toEntryLists, List.map_cons, entryListsOf] at ih ⊢
    rw [ih]

theorem insertKV_notMem {β : Type} (acc : List (String × β)) (k : String) (v : β)
    (h : k ∉ acc.map Prod.fst) : insertKV acc k v = acc ++ [(k, v)] := by
  induction acc with
  | nil => simp [insertKV]
  | cons p rest ih =>
    simp only [List.map_cons, List.mem_cons] at h
    push_neg at h
    have hne : ¬ (p.1 = k) := fun hh => h.1 hh.symm
    simp [insertKV, hne, ih h.2]

theorem a2o_pairs_id (m : List (String × JSVal)) :
    (m.map Prod.fst).Nodup →
    m.all (fun p => truthy p.2) = true →
    (∀ p ∈ m, p.1 ≠ "__proto__") →
    ∀ (es : List (String × JSVal)) (ps : ProtoState),
      (∀ x ∈ m.map Prod.fst, x ∉ es.map Prod.fst) →
      List.foldlM (fun acc item => a2oStep 0 acc item)
          (es, ps) (m.map (fun p => [JSVal.str p.1, p.2])) = .ok (es ++ m, ps) := by
  induction m with
  | nil =>
    intro _ _ _ es ps _
    simp only [List.map_nil, List.foldlM_nil, List.append_nil]
    rfl
  | cons p rest ih =>
    intro hnd ht hp es ps hdisj
    obtain ⟨k, v⟩ := p
    rw [List.all_cons, Bool.and_eq_true] at ht
    rw [List.map_cons, List.nodup_cons] at hnd
    have hkp : k ≠ "__proto__" := hp (k, v) (by simp)
    have hstep : a2oStep 0 (es, ps) [JSVal.str k, v] = .ok (es ++ [(k, v)], ps) := by
      have hins : insertKV es k v = es ++ [(k, v)] :=
        insertKV_notMem es k v (hdisj k (by simp))
      simp [a2oStep, jsAssign, collapseValues, toPropertyKey, ht.1, hins, hkp]
    rw [List.map_cons, List.foldlM_cons, hstep]
    have hdisj2 : ∀ x ∈ rest.map Prod.fst, x ∉ (es ++ [(k, v)]).map Prod.fst := by
      intro x hx
      simp only [List.map_append, List.mem_append]
      push_neg
      constructor
      · exact hdisj x (by simp [hx])
      · simp only [List.map_cons, List.map_nil, List.mem_singleton]
        intro hxk
        exact hnd.1 (hxk ▸ hx)
    have hrec := ih hnd.2 ht.2 (fun q hq => hp q (by simp [hq])) (es ++ [(k, v)]) ps hdisj2
    simpa using hrec

/-- C3 (amended): for every flat mapping whose values are all truthy scalars
    and whose keys avoid `__proto__`, composing the transcoders round-trips:
    `_ArrayToObject(_ObjectToArray(m), 0)` reproduces `m`; in particular the
    mapping of `a` to 10 and `b` to 20 round-trips.  (A falsy scalar value
    such as `0` comes back as `null`, and an own key `__proto__` is swallowed
    by the inherited prototype setter — see the counterexample.) -/
theorem objectArray_roundTrip_truthy (m : List (String × JSVal))
    (hnd : (m.map Prod.fst).Nodup)
    (hv : m.all (fun p => isScalar p.2 && truthy p.2) = true)
    (hp : ∀ p ∈ m, p.1 ≠ "__proto__") :
    objRoundTrip m = .ok m := by
  have h1 : _ObjectToArray (JSVal.obj m) =
      .ok (JSVal.arr (m.map (fun p => JSVal.arr [JSVal.str p.1, p.2]))) := by
    have hf := transformFields_scalar_truthy m hv
    simp [_ObjectToArray, typeofTag, isNullV, transform, hf]
  have ht : m.all (fun p => truthy p.2) = true := by
    rw [List.all_eq_true] at hv ⊢
    intro p hp2
    have hb := hv p hp2
    rw [Bool.and_eq_true] at hb
    exact hb.2
  have h3 := a2o_pairs_id m hnd ht hp [] ProtoState.objectProto (by simp)
  simp only [objRoundTrip, h1, toEntryLists_pairs]
  unfold _ArrayToObject
  rw [h3]
  simp

/-- Witness for C3 at the example mapping of the spec, a to 10 and b to 20. -/
theorem objectArray_roundTrip_truthy_witness :
    objRoundTrip [("a", JSVal.num 10), ("b", JSVal.num 20)] =
      .ok [("a", JSVal.num 10), ("b", JSVal.num 20)] :=
  objectArray_roundTrip_truthy [("a", JSVal.num 10), ("b", JSVal.num 20)]
    (by decide) (by rfl) (by decide)

/-- C3 fails as stated at two flat scalar mappings.  First, for the falsy
    scalar value `0`: the mapping of `a` to 0 round-trips to `a` mapped to
    `null`, because `_ArrayToObject` collapses a falsy single remaining
    element to `null`.  Second, for a truthy scalar under the own key
    `__proto__`: the write back hits the inherited prototype setter, a silent
    no-op for a primitive, so the round trip yields the empty mapping. -/
theorem objectArray_roundTrip_falsy_cx :
    (isScalar (JSVal.num 0) = true ∧
      objRoundTrip [("a", JSVal.num 0)] = .ok [("a", JSVal.null)] ∧
      ([("a", JSVal.null)] : List (String × JSVal)) ≠ [("a", JSVal.num 0)]) ∧
    (isScalar (JSVal.num 10) = true ∧ truthy (JSVal.num 10) = true ∧
      objRoundTrip [("__proto__", JSVal.num 10)] = .ok [] ∧
      (([] : List (String × JSVal)) ≠ [("__proto__", JSVal.num 10)])) := by
  constructor
  · refine ⟨rfl, ?_, by simp⟩
    simp [objRoundTrip, _ObjectToArray, typeofTag, isNullV, transform, transformFields,
      toEntryLists, entryListsOf, _ArrayToObject, a2oStep, jsAssign, collapseValues,
      truthy, toPropertyKey, insertKV]
  · refine ⟨rfl, rfl, ?_, by simp⟩
    simp [objRoundTrip, _ObjectToArray, typeofTag, isNullV, transform, transformFields,
      toEntryLists, entryListsOf, _ArrayToObject, a2oStep, jsAssign, hasProtoAccessor,
      collapseValues, truthy, toPropertyKey, insertKV]

/-- C6: `_filterArray` keeps, recursively through nested arrays, exactly the
    elements whose runtime type matches one of the given tags, preserving
    nesting structure and relative order; a nested array is preserved as a
    (recursively filtered, possibly empty) array rather than dropped.  Stated
    as the per-element characterisation together with the example of the spec. -/
theorem filterArray_typeFilter :
    (∀ (xs : List JSVal) (ts : List String),
        _filterArray xs ts = xs.filterMap (keepElem ts)) ∧
    _filterArray [JSVal.num 1,
        JSVal.arr [JSVal.str "hello", JSVal.num 2, JSVal.bool false],
        JSVal.bool true, JSVal.num 3] ["number"] =
      [JSVal.num 1, JSVal.arr [JSVal.num 2], JSVal.num 3] := by
  constructor
  · intro xs ts
    induction xs with
    | nil => simp [_filterArray]
    | cons v rest ih =>
      cases v <;>
        simp [_filterArray, keepElem, List.filterMap_cons, ih] <;>
        split <;>
        simp [List.filterMap_cons, ih]
  · simp [_filterArray, typeofTag]

/-- C5: `_insertAt` leaves the array unchanged — no insertion, no error —
    whenever the index falls outside `[0, array.length]` inclusive; an
    in-bounds fractional index behaves exactly as its floor does; and at the
    examples of the spec, index 3.14 on `[1,2,3,4]` inserts at position 3 while
    indices -1 and 5 leave the length-4 array unchanged. -/
theorem insertAt_policy :
    (∀ (array : List JSVal) (index : ℚ) (items : List JSVal),
        index < 0 ∨ (array.length : ℚ) < index → _insertAt array index items = array) ∧
    (∀ (array : List JSVal) (index : ℚ) (items : List JSVal),
        0 ≤ index → index ≤ (array.length : ℚ) →
        _insertAt array index items = _insertAt array ((⌊index⌋ : Int) : ℚ) items) ∧
    _insertAt [JSVal.num 1, JSVal.num 2, JSVal.num 3, JSVal.num 4] (314/100)
        [JSVal.str "a", JSVal.str "b"] =
      [JSVal.num 1, JSVal.num 2, JSVal.num 3, JSVal.str "a", JSVal.str "b", JSVal.num 4] ∧
    _insertAt [JSVal.num 1, JSVal.num 2, JSVal.num 3, JSVal.num 4] (-1)
        [JSVal.str "a", JSVal.str "b"] =
      [JSVal.num 1, JSVal.num 2, JSVal.num 3, JSVal.num 4] ∧
    _insertAt [JSVal.num 1, JSVal.num 2, JSVal.num 3, JSVal.num 4] 5
        [JSVal.str "a", JSVal.str "b"] =
      [JSVal.num 1, JSVal.num 2, JSVal.num 3, JSVal.num 4] := by
  refine ⟨?_, ?_, ?_, ?_, ?_⟩
  · intro array index items h
    rw [_insertAt, if_pos h]
  · intro array index items h0 h1
    have hf0 : (0 : Int) ≤ ⌊index⌋ := Int.floor_nonneg.mpr h0
    have hf1 : ((⌊index⌋ : Int) : ℚ) ≤ (array.length : ℚ) :=
      le_trans (Int.floor_le index) h1
    have hc : ¬ (index < 0 ∨ (array.length : ℚ) < index) := by
      push_neg
      exact ⟨h0, h1⟩
    have hc2 : ¬ (((⌊index⌋ : Int) : ℚ) < 0 ∨
        (array.length : ℚ) < ((⌊index⌋ : Int) : ℚ)) := by
      push_neg
      constructor
      · exact_mod_cast hf0
      · exact hf1
    rw [_insertAt, if_neg hc, _insertAt, if_neg hc2, Int.floor_intCast]
  · have hf : (⌊(314/100 : ℚ)⌋ : Int) = 3 := by norm_num [Int.floor_eq_iff]
    norm_num [_insertAt, hf]
    rfl
  · norm_num [_insertAt]
  · norm_num [_insertAt]

/-- Witness for C5 at the out-of-bounds example of the spec: index 5 on a length-4
    array is a silent no-op. -/
theorem insertAt_policy_witness :
    _insertAt [JSVal.num 1, JSVal.num 2, JSVal.num 3, JSVal.num 4] 5
      [JSVal.str "a", JSVal.str "b"] =
    [JSVal.num 1, JSVal.num 2, JSVal.num 3, JSVal.num 4] :=
  insertAt_policy.1 [JSVal.num 1, JSVal.num 2, JSVal.num 3, JSVal.num 4] 5
    [JSVal.str "a", JSVal.str "b"] (Or.inr (by norm_num))
